import Mathlib

/-!
Verification of the `media_retrieval` Conv3D pipeline
(`src/training/Conv3D/conv3d_retreival.py`).

The Python script is shallowly embedded: a video is a list of frames, a
frame records its height, width, channel count and an identifying tag
(its temporal position in the source clip); machine floats are embedded
as exact rationals; fallible code returns `Except`.  Library calls made
by the script (`cv2.resize`, `sklearn.train_test_split`,
`sklearn.cosine_similarity`, `sklearn.accuracy_score`, the Keras
`ModelCheckpoint` callback, `pickle`) are embedded at the granularity of
their documented contracts, as noted at each definition.
-/

/-- A decoded video frame: spatial dimensions, channel count, and a tag
identifying the frame (here: its temporal index in the clip). -/
structure Frame where
  height : Nat
  width : Nat
  channels : Nat
  tag : Nat
deriving DecidableEq

/-- `cv2.resize(frame, (w, h))`: the spatial dimensions become the target
resolution; channels and content identity are preserved. -/
def cv2_resize (f : Frame) (res : Nat × Nat) : Frame :=
  { f with width := res.1, height := res.2 }

/-- The error a `sample_frames` run can raise: Python's
`ZeroDivisionError` from `read_count % 0` when the computed stride is
zero (line 56 of the source). -/
inductive SampleError where
  | zeroDivision
deriving DecidableEq

/-- The state of `DataHandler.__init__` (line 32): `n_frames = 16`,
`operating_resolution = (224, 224)`, `test_split = test_size`.  The
`videos_path` string is not modelled; directory contents are passed
explicitly to the functions that read them. -/
structure DataHandler where
  n_frames : Nat
  operating_resolution : Nat × Nat
  test_split : ℚ

/-- `DataHandler()` with the default `test_size = 0.05`. -/
def DataHandler.init : DataHandler :=
  { n_frames := 16, operating_resolution := (224, 224), test_split := 1 / 20 }

/-- The frame-reading loop of `DataHandler.sample_frames` (lines 53-60):
`read_count` starts at 1; each read frame is kept when
`read_count % stride == 0` (resized first); the loop breaks once
`n_frames` frames are collected.  Python raises `ZeroDivisionError` at
the first modulo when `stride = 0`; for a nonzero stride of either sign
`read_count % stride == 0` holds exactly when `stride` divides
`read_count`, which is what `Int.emod` gives. -/
def sampleFramesLoop (res : Nat × Nat) (n_frames : Nat) (stride : Int) :
    List Frame → Nat → List Frame → Except SampleError (List Frame)
  | [], _, acc => .ok acc
  | f :: rest, read_count, acc =>
    if stride = 0 then .error .zeroDivision
    else
      let acc' := if (read_count : Int) % stride = 0 then acc ++ [cv2_resize f res] else acc
      if acc'.length = n_frames then .ok acc'
      else sampleFramesLoop res n_frames stride rest (read_count + 1) acc'

/-- `DataHandler.sample_frames` (lines 42-61): the frame total is the
clip's frame count, the stride is `int(frame_total / n_frames) - 5`,
and the collected list is truncated to `n_frames` on return
(`frames_list[:self.n_frames]`). -/
def DataHandler.sample_frames (dh : DataHandler) (video : List Frame) :
    Except SampleError (List Frame) :=
  let frame_total := video.length
  let stride : Int := (frame_total / dh.n_frames : Nat) - 5
  match sampleFramesLoop dh.operating_resolution dh.n_frames stride video 1 [] with
  | .error e => .error e
  | .ok frames => .ok (frames.take dh.n_frames)

/-- `DataHandler.extract_video_features` (line 63): returns
`sample_frames` of the video. -/
def DataHandler.extract_video_features (dh : DataHandler) (video : List Frame) :
    Except SampleError (List Frame) :=
  dh.sample_frames video

/-- Proof-side characterisation of the loop's selection: the resized
frames at the reading positions divisible by the stride, in temporal
order (`r` is the `read_count` of the first listed frame). -/
def selectR (res : Nat × Nat) (stride : Int) : List Frame → Nat → List Frame
  | [], _ => []
  | f :: rest, r =>
    (if (r : Int) % stride = 0 then [cv2_resize f res] else []) ++ selectR res stride rest (r + 1)

/-- A synthetic clip used for concrete evaluations: `k` frames of
height 112, width 111, 3 channels, tagged by temporal index. -/
def mkVideo (k : Nat) : List Frame :=
  (List.range k).map (fun i => { height := 112, width := 111, channels := 3, tag := i })

/-- A video file inside a class directory: its path/name and its
decodable frame stream. -/
structure VideoFile where
  name : String
  frames : List Frame
deriving DecidableEq

/-- An immediate subdirectory of the dataset root: its name (the class
label) and its video files. -/
structure ClassDir where
  name : String
  files : List VideoFile
deriving DecidableEq

/-- Lexicographic code-point comparison of character lists, the order
Python uses to compare strings. -/
def charListLe : List Char → List Char → Bool
  | [], _ => true
  | _ :: _, [] => false
  | c :: cs, d :: ds =>
    if c.toNat < d.toNat then true
    else if d.toNat < c.toNat then false
    else charListLe cs ds

/-- Python's string order (code-point lexicographic), used by `sorted`
on directory listings. -/
def strLe (a b : String) : Bool := charListLe a.data b.data

/-- The inner loop of `prepare_training_data` (lines 85-88): for each
video file of a folder, append its sampled features, the folder's class
index, and the file's path, in listing order.  A sampling error aborts
the whole build, as the unguarded Python loop would. -/
def processFiles (dh : DataHandler) (label : Nat) :
    List VideoFile → Except SampleError (List (List Frame) × List Nat × List String)
  | [] => .ok ([], [], [])
  | vf :: rest =>
    match dh.extract_video_features vf.frames, processFiles dh label rest with
    | .error e, _ => .error e
    | .ok _, .error e => .error e
    | .ok feats, .ok (fs, ls, vs) => .ok (feats :: fs, label :: ls, vf.name :: vs)

/-- The outer loop of `prepare_training_data` (lines 81-88): folders in
sorted order, each folder's file listing sorted, the folder's label
looked up in the `classes` mapping.  `sorted` is embedded as a stable
insertion sort under Python's string order; listing names in a
directory are distinct, so this agrees with any sorting algorithm. -/
def processDirs (dh : DataHandler) (classes : List (String × Nat)) :
    List ClassDir → Except SampleError (List (List Frame) × List Nat × List String)
  | [] => .ok ([], [], [])
  | d :: rest =>
    let video_files := List.insertionSort (fun a b => strLe a.name b.name) d.files
    match processFiles dh ((classes.lookup d.name).getD 0) video_files,
          processDirs dh classes rest with
    | .error e, _ => .error e
    | .ok _, .error e => .error e
    | .ok (f1, l1, v1), .ok (f2, l2, v2) => .ok (f1 ++ f2, l1 ++ l2, v1 ++ v2)

/-- `DataHandler.prepare_training_data` (lines 69-90): sort the
subdirectory names, assign class indices by enumeration order
(`dict([(folder, idx) for idx, folder in enumerate(folders)])`), then
run the nested collection loops. -/
def DataHandler.prepare_training_data (dh : DataHandler) (root : List ClassDir) :
    Except SampleError
      (List (List Frame) × List Nat × List String × List (String × Nat)) :=
  let folders := List.insertionSort (fun a b => strLe a.name b.name) root
  let classes := (folders.map (fun f => f.name)).enum.map (fun p => (p.2, p.1))
  match processDirs dh classes folders with
  | .error e => .error e
  | .ok (X, y, vids) => .ok (X, y, vids, classes)

/-- `sklearn.model_selection.train_test_split(X, y, test_size,
random_state)` with the default `shuffle=True`, embedded per its
documented contract: `n_test = ceil(test_size * n)`; the seeded RNG's
permutation of `range(n)` is abstracted as the function argument
`perm`; the test indices are the first `n_test` permuted positions and
the train indices the rest.  Determinism for a fixed seed is the fact
that `perm` is a function of `(seed, n)`. -/
def train_test_split (perm : Nat → Nat → List Nat)
    (X : List (List Frame)) (y : List Nat) (test_size : ℚ) (seed : Nat) :
    List (List Frame) × List (List Frame) × List Nat × List Nat :=
  let n := X.length
  let n_test := (⌈test_size * n⌉).toNat
  let p := perm seed n
  let test_idx := p.take n_test
  let train_idx := p.drop n_test
  (train_idx.map (fun i => X.getD i []), test_idx.map (fun i => X.getD i []),
   train_idx.map (fun i => y.getD i 0), test_idx.map (fun i => y.getD i 0))

/-- The serialized bundle written by `get_training_data` (line 105):
the six named fields, in the order of the dumped dict.  `pickle` is
embedded per its round-trip contract (load of a dump is the dumped
value), so a snapshot simply holds the six values. -/
structure Snapshot where
  X_train : List (List Frame)
  y_train : List Nat
  X_test : List (List Frame)
  y_test : List Nat
  classes : List (String × Nat)
  videos : List String
deriving DecidableEq

/-- `DataHandler.get_training_data` (lines 93-111).  `data_pickle =
None` prepares the data, splits it with `random_state = 42`, and dumps
the snapshot (first component `some snap`; the `save_data_as` filename
munging of lines 98-99 only chooses the file's name and is not
modelled); otherwise the given snapshot is loaded and its fields
returned (nothing is written: first component `none`).  The return
tuple order is that of line 111. -/
def DataHandler.get_training_data (dh : DataHandler) (perm : Nat → Nat → List Nat)
    (root : List ClassDir) (data_pickle : Option Snapshot) :
    Except SampleError
      (Option Snapshot ×
        (List (List Frame) × List (List Frame) × List Nat × List Nat ×
          List String × List (String × Nat))) :=
  match data_pickle with
  | none =>
    match dh.prepare_training_data root with
    | .error e => .error e
    | .ok (X, y, video_list, classes) =>
      let split := train_test_split perm X y dh.test_split 42
      let snap : Snapshot :=
        { X_train := split.1, y_train := split.2.2.1, X_test := split.2.1,
          y_test := split.2.2.2, classes := classes, videos := video_list }
      .ok (some snap, (split.1, split.2.1, split.2.2.1, split.2.2.2, video_list, classes))
  | some snap =>
    .ok (none, (snap.X_train, snap.X_test, snap.y_train, snap.y_test, snap.videos, snap.classes))

/-- A concrete stand-in for the seeded RNG permutation, used in
witnesses: the identity permutation of `range n`. -/
def idPerm (_seed n : Nat) : List Nat := List.range n

/-- The architecture-level configuration of the `c3d_model` network
(`c3d_model.py` is imported at line 22; the network internals are
framework territory, but its constructor arguments — and hence the
classifier's output size `nb_classes` — are part of the call at
line 144). -/
structure C3DModel where
  resolution : Nat × Nat
  n_frames : Nat
  channels : Nat
  nb_classes : Nat
deriving DecidableEq

/-- The `c3d_model(resolution, n_frames, channels, nb_classes)`
constructor call. -/
def c3d_model (resolution : Nat × Nat) (n_frames channels nb_classes : Nat) : C3DModel :=
  { resolution := resolution, n_frames := n_frames, channels := channels,
    nb_classes := nb_classes }

/-- The part of `Trainer.__init__` (lines 118-131) the model-creation
claims depend on: the operating resolution and the loaded `classes`
mapping. -/
structure Trainer where
  operating_resolution : Nat × Nat
  classes : List (String × Nat)

/-- `self.n_classes = len(self.classes)` (line 131). -/
def Trainer.n_classes (tr : Trainer) : Nat := tr.classes.length

/-- The model choice of `Trainer.train` (lines 143-144): load the given
pretrained model, or construct
`c3d_model(resolution=self.operating_resolution, n_frames=16,
channels=3, nb_classes=3)` — the literal `3`, not `self.n_classes`. -/
def Trainer.chooseModel (tr : Trainer) (pretrained_model : Option C3DModel) : C3DModel :=
  match pretrained_model with
  | some m => m
  | none => c3d_model tr.operating_resolution 16 3 3

/-- The `metrics` argument of the `compile` call at line 151: none is
passed (`optimizer='adam', loss='sparse_categorical_crossentropy'`
only), so the fit loop tracks nothing beyond the loss and its epoch
logs carry only `loss` and `val_loss`. -/
def compile_metrics : List String := []

/-- The `val_accuracy` entry of an epoch's log dictionary: present
exactly when an accuracy metric was registered at compile time; `acc`
is the value the validation pass would measure for that epoch. -/
def epochLogs (metrics : List String) (acc : ℚ) : Option ℚ :=
  if "accuracy" ∈ metrics then some acc else none

/-- What the `ModelCheckpoint` callback of line 149 does at one epoch
end. -/
inductive CheckpointEvent where
  /-- A checkpoint file is written after this epoch. -/
  | saved
  /-- No checkpoint is written after this epoch. -/
  | skipped
  /-- `keras.callbacks.callbacks` (the Keras 2.3.x module imported at
  line 20) formats the filename template with `**logs` before the
  save-best check; the default template of line 146 references
  `val_accuracy`, so a log dictionary without that key raises
  `KeyError` and aborts the run at the first epoch end. -/
  | keyError
deriving DecidableEq

/-- The run of `ModelCheckpoint(monitor='val_accuracy',
save_best_only=True, mode='max')` (line 149) over the sequence of
values the validation pass would measure, under the metrics registered
by `compile` (line 151): each epoch end first formats the
`val_accuracy`-referencing filename from the logs — `KeyError` when
the key is absent, aborting the run — then saves exactly when the
monitored value strictly exceeds the running best, which starts unset
(`-inf`). -/
def modelCheckpointRun (metrics : List String) : Option ℚ → List ℚ → List CheckpointEvent
  | _, [] => []
  | best, a :: rest =>
    match epochLogs metrics a with
    | none => [.keyError]
    | some cur =>
      match best with
      | none => .saved :: modelCheckpointRun metrics (some cur) rest
      | some b =>
        if b < cur then .saved :: modelCheckpointRun metrics (some cur) rest
        else .skipped :: modelCheckpointRun metrics (some b) rest

/-- Dot product of two embedding vectors (numerator data of cosine
similarity). -/
def dot (u v : List ℚ) : ℚ := (List.zipWith (fun a b => a * b) u v).sum

/-- The comparison `cosine_similarity(u, v) > t` for a nonnegative
threshold `t`, decided exactly over rationals without square roots:
`d / (‖u‖ ‖v‖) > t ≥ 0` iff `d > 0` and `d² > t² ‖u‖² ‖v‖²`.  This
agrees with `sklearn.cosine_similarity` including its zero-norm
convention (a zero vector is left unnormalised, so its similarities are
0 and never exceed a positive threshold: here `d = 0` fails `0 < d`). -/
def cos_gt (u v : List ℚ) (t : ℚ) : Bool :=
  decide (0 < dot u v) && decide (t * t * (dot u u * dot v v) < dot u v * dot u v)

/-- `np.squeeze(np.argwhere(row > self.distance_threshold))` of
`Tester.test` (line 172), before the squeeze: the indices of the
queries whose similarity to query `idx` exceeds the threshold, in
increasing order. -/
def retrieved_indexes (fv : List (List ℚ)) (idx : Nat) (t : ℚ) : List Nat :=
  (List.range fv.length).filter (fun j => cos_gt (fv.getD idx []) (fv.getD j []) t)

/-- `sklearn.metrics.accuracy_score(y_true, y_pred)` on equal-length
label vectors: the fraction of positions where they agree. -/
def accuracy_score (y_true y_pred : List Nat) : ℚ :=
  (List.zipWith (fun a b => if a = b then (1 : ℚ) else 0) y_true y_pred).sum
    / (y_true.length : ℚ)

/-- What one iteration of the `Tester.test` loop (lines 171-179)
appends for a query. -/
inductive QueryOutcome where
  /-- The `except: continue` path: nothing is appended.  Reached when
  `retrieved_indexes` has exactly one element: `np.squeeze` then yields
  a 0-d index, `y_train[...]` a scalar, and `len(retrieved_labels)`
  raises a `TypeError` that the bare `except` swallows. -/
  | skipped
  /-- The per-query `accuracy_score` appended to `accuracy_list`. -/
  | acc (a : ℚ)
  /-- The zero-retrieved path: `accuracy_score` of two empty arrays is
  `np.average` of an empty array, a NaN that is appended to
  `accuracy_list` (the bare `except` is not reached). -/
  | nanAcc
deriving DecidableEq

/-- The body of the `Tester.test` loop for one query, given the query's
own label and its retrieved index list (see `QueryOutcome` for the
three paths of the `try`/`except`). -/
def processQuery (y_train : List Nat) (idx : Nat) (retrieved : List Nat) : QueryOutcome :=
  match retrieved with
  | [] => .nanAcc
  | [_] => .skipped
  | _ => .acc (accuracy_score (List.replicate retrieved.length (y_train.getD idx 0))
      (retrieved.map (fun j => y_train.getD j 0)))

/-- `self.distance_threshold = 0.9` (line 162). -/
def distance_threshold : ℚ := 9 / 10

/-- The retrieval evaluation loop of `Tester.test` (lines 167-181) over
the embedded feature vectors (one per training example, produced by the
truncated model — the embedding function itself is framework
territory): the per-query outcomes, in query order. -/
def Tester.test (fv : List (List ℚ)) (y_train : List Nat) (t : ℚ) : List QueryOutcome :=
  (List.range fv.length).map (fun idx => processQuery y_train idx (retrieved_indexes fv idx t))

/-- The value of the `sample_frames` result on a 20-frame clip, used as
a concrete evaluation point. -/
def c10out : List Frame :=
  ((DataHandler.init.sample_frames (mkVideo 20)).toOption).getD []

/-- A two-class dataset root with no video files, used as a concrete
evaluation point for the dataset builder (note the unsorted listing). -/
def rootAB : List ClassDir :=
  [{ name := "b", files := [] }, { name := "a", files := [] }]

/-- The snapshot produced by a build over `rootAB`. -/
def snapAB : Snapshot :=
  { X_train := [], y_train := [], X_test := [], y_test := [],
    classes := [("a", 0), ("b", 1)], videos := [] }

/-- A class directory with ten 96-frame clips, for the concrete
three-class scenario. -/
def mkDir (nm : String) : ClassDir :=
  { name := nm, files := (List.range 10).map (fun j => { name := nm ++ toString j, frames := mkVideo 96 }) }

/-- The concrete three-class, ten-videos-per-class dataset root. -/
def root3 : List ClassDir := [mkDir "b", mkDir "a", mkDir "c"]

/-- A concrete epoch sequence of validation accuracies. -/
def accsW : List ℚ := [1 / 2, 1 / 4, 3 / 4]

theorem sampleFramesLoop_eq (res : Nat × Nat) (n : Nat) (stride : Int) (hs : stride ≠ 0) :
    ∀ (fs : List Frame) (r : Nat) (acc : List Frame), acc.length < n →
      sampleFramesLoop res n stride fs r acc =
        .ok (acc ++ (selectR res stride fs r).take (n - acc.length)) := by
  intro fs
  induction fs with
  | nil => intro r acc _; simp [sampleFramesLoop, selectR]
  | cons f rest ih =>
    intro r acc hacc
    rw [sampleFramesLoop, if_neg hs]
    by_cases hmod : (r : Int) % stride = 0
    · simp only [hmod, if_true, selectR, List.singleton_append]
      by_cases hfull : (acc ++ [cv2_resize f res]).length = n
      · rw [if_pos hfull]
        simp only [List.length_append, List.length_singleton] at hfull
        have h1 : n - acc.length = 1 := by omega
        simp [h1]
      · rw [if_neg hfull]
        have hlt : (acc ++ [cv2_resize f res]).length < n := by
          simp only [List.length_append, List.length_singleton] at hfull ⊢
          omega
        rw [ih (r + 1) _ hlt]
        simp only [List.length_append, List.length_singleton]
        have h2 : ∃ m, n - acc.length = m + 1 := ⟨n - acc.length - 1, by omega⟩
        obtain ⟨m, hm⟩ := h2
        have h3 : n - (acc.length + 1) = m := by omega
        simp [hm, h3, List.take_succ_cons]
    · simp only [hmod, if_false, selectR, List.nil_append]
      have hne : ¬ acc.length = n := by omega
      rw [if_neg hne, ih (r + 1) acc hacc]

theorem selectR_sublist (res : Nat × Nat) (stride : Int) :
    ∀ (fs : List Frame) (r : Nat),
      (selectR res stride fs r).Sublist (fs.map (fun f => cv2_resize f res)) := by
  intro fs
  induction fs with
  | nil => intro r; simp [selectR]
  | cons f rest ih =>
    intro r
    rw [selectR, List.map_cons]
    by_cases hmod : (r : Int) % stride = 0
    · simpa [hmod] using (ih (r + 1)).cons₂ (cv2_resize f res)
    · simpa [hmod] using (ih (r + 1)).cons (cv2_resize f res)

theorem selectR_length (res : Nat × Nat) (s : Nat) :
    ∀ (fs : List Frame) (r : Nat), 1 ≤ r →
      (selectR res (s : Int) fs r).length = (r - 1 + fs.length) / s - (r - 1) / s := by
  intro fs
  induction fs with
  | nil => intro r _; simp [selectR]
  | cons f rest ih =>
    intro r hr
    obtain ⟨m, rfl⟩ : ∃ m, r = m + 1 := ⟨r - 1, by omega⟩
    have hcast : (((m + 1 : Nat) : Int) % (s : Int) = 0) ↔ s ∣ (m + 1) := by
      have h1 : (((m + 1 : Nat) : Int) % (s : Int) = 0) ↔ ((m + 1) % s = 0) := by
        exact_mod_cast Iff.rfl
      rw [h1]
      exact (Nat.dvd_iff_mod_eq_zero).symm
    have hsucc : (m + 1) / s = m / s + if s ∣ (m + 1) then 1 else 0 := Nat.succ_div m s
    have hmono : (m + 1) / s ≤ (m + 1 + rest.length) / s := Nat.div_le_div_right (by omega)
    have hmono2 : m / s ≤ (m + 1) / s := Nat.div_le_div_right (by omega)
    rw [selectR, List.length_append, ih (m + 1 + 1) (by omega)]
    simp only [Nat.add_sub_cancel, List.length_cons]
    have harg : m + (rest.length + 1) = m + 1 + rest.length := by omega
    rw [harg]
    by_cases hd : s ∣ (m + 1)
    · rw [if_pos (hcast.mpr hd)]
      simp only [if_pos hd] at hsucc
      simp only [List.length_singleton]
      omega
    · rw [if_neg (fun h => hd (hcast.mp h))]
      simp only [if_neg hd] at hsucc
      simp only [List.length_nil]
      omega

theorem sample_frames_ok (dh : DataHandler) (video : List Frame)
    (hn : 0 < dh.n_frames)
    (hs : ((video.length / dh.n_frames : Nat) : Int) - 5 ≠ 0) :
    dh.sample_frames video =
      .ok ((selectR dh.operating_resolution (((video.length / dh.n_frames : Nat) : Int) - 5)
        video 1).take dh.n_frames) := by
  rw [DataHandler.sample_frames]
  rw [sampleFramesLoop_eq dh.operating_resolution dh.n_frames _ hs video 1 [] (by simpa using hn)]
  simp [List.take_take]

theorem sample_frames_spec96 (video : List Frame) (hlen : 96 ≤ video.length) :
    ∃ out, DataHandler.init.sample_frames video = .ok out ∧ out.length = 16 ∧
      out.Sublist (video.map (fun f => cv2_resize f (224, 224))) := by
  have ht : 6 ≤ video.length / 16 := (Nat.le_div_iff_mul_le (by norm_num)).mpr (by omega)
  have h16 : 16 * (video.length / 16) ≤ video.length := by
    have := Nat.div_mul_le_self video.length 16
    omega
  have hninit : DataHandler.init.n_frames = 16 := rfl
  have hres : DataHandler.init.operating_resolution = (224, 224) := rfl
  have hs : ((video.length / DataHandler.init.n_frames : Nat) : Int) - 5 ≠ 0 := by
    rw [hninit]; omega
  have hcast : ((video.length / 16 : Nat) : Int) - 5 = ((video.length / 16 - 5 : Nat) : Int) := by
    omega
  refine ⟨_, sample_frames_ok DataHandler.init video (by rw [hninit]; norm_num) hs, ?_, ?_⟩
  · rw [hninit, hres, hcast, List.length_take,
      selectR_length (224, 224) (video.length / 16 - 5) video 1 (le_refl 1)]
    have hdiv : 16 ≤ video.length / (video.length / 16 - 5) :=
      (Nat.le_div_iff_mul_le (by omega)).mpr (by omega)
    simp only [Nat.sub_self, Nat.zero_div, Nat.zero_add, Nat.sub_zero]
    omega
  · exact (List.take_sublist _ _).trans (by rw [hres] at *; exact selectR_sublist _ _ video 1)

theorem sample_frames_shape (video : List Frame) (hlen : 96 ≤ video.length)
    (hch : ∀ f ∈ video, f.channels = 3) :
    ∃ out, DataHandler.init.sample_frames video = .ok out ∧ out.length = 16 ∧
      (∀ fr ∈ out, fr.height = 224 ∧ fr.width = 224 ∧ fr.channels = 3) ∧
      out.Sublist (video.map (fun f => cv2_resize f (224, 224))) := by
  obtain ⟨out, hok, hlen16, hsub⟩ := sample_frames_spec96 video hlen
  refine ⟨out, hok, hlen16, ?_, hsub⟩
  intro fr hfr
  have hmem : fr ∈ video.map (fun f => cv2_resize f (224, 224)) := hsub.subset hfr
  obtain ⟨g, hg, rfl⟩ := List.mem_map.mp hmem
  exact ⟨rfl, rfl, hch g hg⟩

/-- Claim C2: for every video whose total frame count is at least
`N*6 = 96` (N = 16), `sample_frames` returns exactly 16 frames, each
resized to the configured 224x224 resolution with 3 color channels, in
the temporal order in which they occur in the video (the output is a
sublist of the resized input frame sequence). -/
theorem claim_C2 (video : List Frame) (hlen : 96 ≤ video.length)
    (hch : ∀ f ∈ video, f.channels = 3) :
    ∃ out, DataHandler.init.sample_frames video = .ok out ∧ out.length = 16 ∧
      (∀ fr ∈ out, fr.height = 224 ∧ fr.width = 224 ∧ fr.channels = 3) ∧
      out.Sublist (video.map (fun f => cv2_resize f (224, 224))) :=
  sample_frames_shape video hlen hch

/-- Witness for C2 at a concrete 96-frame clip of 3-channel frames. -/
theorem claim_C2_witness :
    96 ≤ (mkVideo 96).length ∧ (∀ f ∈ mkVideo 96, f.channels = 3) ∧
      (∃ out, DataHandler.init.sample_frames (mkVideo 96) = .ok out ∧ out.length = 16 ∧
        (∀ fr ∈ out, fr.height = 224 ∧ fr.width = 224 ∧ fr.channels = 3) ∧
        out.Sublist ((mkVideo 96).map (fun f => cv2_resize f (224, 224)))) :=
  ⟨by decide, by decide, claim_C2 (mkVideo 96) (by decide) (by decide)⟩

/-- Claim C3 (code evaluation at the failing input): a 64-frame video
has `total_frames/N = 4 ≤ 5`, so the stride `int(64/16) - 5 = -1` is
negative — yet `sample_frames` succeeds and returns a 16-frame
sequence, because Python's modulo accepts a negative divisor; and an
80-frame video (stride exactly 0) raises a `ZeroDivisionError`, not the
`InvalidInputError` the specification requires. -/
theorem claim_C3_eval :
    (DataHandler.init.sample_frames (mkVideo 64)).map List.length = .ok 16 ∧
      DataHandler.init.sample_frames (mkVideo 80) = .error .zeroDivision := by
  exact ⟨rfl, rfl⟩

/-- Claim C10: on every video input on which it returns, `sample_frames`
returns a frame sequence of length at most N = 16 (the collected list is
truncated to its first 16 elements). -/
theorem claim_C10 (video out : List Frame)
    (h : DataHandler.init.sample_frames video = .ok out) : out.length ≤ 16 := by
  rw [DataHandler.sample_frames] at h
  cases heq : sampleFramesLoop DataHandler.init.operating_resolution DataHandler.init.n_frames
      (((video.length / DataHandler.init.n_frames : Nat) : Int) - 5) video 1 [] with
  | error e => rw [heq] at h; exact absurd h (by simp)
  | ok frames =>
    rw [heq] at h
    simp only [Except.ok.injEq] at h
    subst h
    exact (List.length_take_le _ _).trans (by norm_num [DataHandler.init])

/-- Witness for C10 at a concrete 20-frame clip. -/
theorem claim_C10_witness :
    DataHandler.init.sample_frames (mkVideo 20) = .ok c10out ∧ c10out.length ≤ 16 :=
  ⟨rfl, claim_C10 (mkVideo 20) c10out rfl⟩

theorem lookup_mem {l : List (String × Nat)} {k : String} {v : Nat}
    (h : l.lookup k = some v) : (k, v) ∈ l := by
  induction l with
  | nil => exact absurd h (by simp [List.lookup])
  | cons p rest ih =>
    rw [List.lookup] at h
    cases hk : (k == p.1) with
    | true =>
      simp only [hk] at h
      have hkp : k = p.1 := by simpa using hk
      have hv : p.2 = v := by simpa using h
      exact List.mem_cons.mpr (Or.inl (by rw [hkp, ← hv]))
    | false =>
      simp only [hk] at h
      exact List.mem_cons_of_mem _ (ih h)

theorem processFiles_labels (dh : DataHandler) (label : Nat) :
    ∀ (files : List VideoFile) (X : List (List Frame)) (ls : List Nat) (vs : List String),
      processFiles dh label files = .ok (X, ls, vs) → ∀ l ∈ ls, l = label := by
  intro files
  induction files with
  | nil =>
    intro X ls vs h
    simp only [processFiles, Except.ok.injEq] at h
    obtain ⟨-, rfl, -⟩ := h
    simp
  | cons vf rest ih =>
    intro X ls vs h
    rw [processFiles] at h
    cases h1 : dh.extract_video_features vf.frames with
    | error e => rw [h1] at h; exact absurd h (by simp)
    | ok feats =>
      rw [h1] at h
      cases h2 : processFiles dh label rest with
      | error e => rw [h2] at h; exact absurd h (by simp)
      | ok triple =>
        obtain ⟨fs, lss, vss⟩ := triple
        rw [h2] at h
        simp only [Except.ok.injEq] at h
        obtain ⟨-, rfl, -⟩ := h
        intro l hl
        rcases List.mem_cons.mp hl with rfl | hl
        · rfl
        · exact ih fs lss vss h2 l hl

theorem processDirs_labels (dh : DataHandler) (classes : List (String × Nat)) :
    ∀ (dirs : List ClassDir) (X : List (List Frame)) (y : List Nat) (v : List String),
      processDirs dh classes dirs = .ok (X, y, v) →
        ∀ l ∈ y, ∃ d ∈ dirs, l = (classes.lookup d.name).getD 0 := by
  intro dirs
  induction dirs with
  | nil =>
    intro X y v h
    simp only [processDirs, Except.ok.injEq] at h
    obtain ⟨-, rfl, -⟩ := h
    simp
  | cons d rest ih =>
    intro X y v h
    rw [processDirs] at h
    cases h1 : processFiles dh ((classes.lookup d.name).getD 0)
        (List.insertionSort (fun a b => strLe a.name b.name) d.files) with
    | error e => rw [h1] at h; exact absurd h (by simp)
    | ok t1 =>
      obtain ⟨f1, l1, v1⟩ := t1
      rw [h1] at h
      cases h2 : processDirs dh classes rest with
      | error e => rw [h2] at h; exact absurd h (by simp)
      | ok t2 =>
        obtain ⟨f2, l2, v2⟩ := t2
        rw [h2] at h
        simp only [Except.ok.injEq] at h
        obtain ⟨-, rfl, -⟩ := h
        intro l hl
        rcases List.mem_append.mp hl with hl | hl
        · exact ⟨d, List.mem_cons_self d rest,
            processFiles_labels dh _ _ f1 l1 v1 h1 l hl⟩
        · obtain ⟨d', hd', hld'⟩ := ih f2 l2 v2 h2 l hl
          exact ⟨d', List.mem_cons_of_mem _ hd', hld'⟩

/-- Claim C8: for every dataset build, the label-name-to-index mapping
has exactly one entry per immediate subdirectory, with indices
`0, 1, ...` assigned in sorted order of the subdirectory names, and
every label of the produced labeled dataset lies in
`[0, len(classes))`. -/
theorem claim_C8 (dh : DataHandler) (root : List ClassDir)
    (X : List (List Frame)) (y : List Nat) (vids : List String)
    (classes : List (String × Nat))
    (h : dh.prepare_training_data root = .ok (X, y, vids, classes)) :
    classes.length = root.length ∧
    classes.map Prod.fst =
      (List.insertionSort (fun a b => strLe a.name b.name) root).map ClassDir.name ∧
    classes.map Prod.snd = List.range root.length ∧
    ∀ l ∈ y, l < classes.length := by
  rw [DataHandler.prepare_training_data] at h
  cases hpd : processDirs dh
      (((List.insertionSort (fun a b => strLe a.name b.name) root).map (fun f => f.name)).enum.map
        (fun p => (p.2, p.1)))
      (List.insertionSort (fun a b => strLe a.name b.name) root) with
  | error e => rw [hpd] at h; exact absurd h (by simp)
  | ok t =>
    obtain ⟨X1, y1, v1⟩ := t
    rw [hpd] at h
    simp only [Except.ok.injEq] at h
    obtain ⟨rfl, rfl, rfl, rfl⟩ := h
    have hlenfold : (List.insertionSort (fun a b => strLe a.name b.name) root).length =
        root.length := List.length_insertionSort ..
    have hfst :
        (((List.insertionSort (fun a b => strLe a.name b.name) root).map
            (fun f => f.name)).enum.map (fun p => (p.2, p.1))).map Prod.fst =
          (List.insertionSort (fun a b => strLe a.name b.name) root).map ClassDir.name := by
      rw [List.map_map]
      have hc : (Prod.fst ∘ fun p : Nat × String => (p.2, p.1)) = Prod.snd := by
        funext p; rfl
      rw [hc, List.enum_map_snd]
    have hsnd :
        (((List.insertionSort (fun a b => strLe a.name b.name) root).map
            (fun f => f.name)).enum.map (fun p => (p.2, p.1))).map Prod.snd =
          List.range root.length := by
      rw [List.map_map]
      have hc : (Prod.snd ∘ fun p : Nat × String => (p.2, p.1)) = Prod.fst := by
        funext p; rfl
      rw [hc, List.enum_map_fst, List.length_map, hlenfold]
    have hclen :
        (((List.insertionSort (fun a b => strLe a.name b.name) root).map
            (fun f => f.name)).enum.map (fun p => (p.2, p.1))).length = root.length := by
      rw [List.length_map, List.enum_length, List.length_map, hlenfold]
    refine ⟨hclen, hfst, hsnd, ?_⟩
    intro l hl
    obtain ⟨d, hd, rfl⟩ := processDirs_labels dh _ _ _ _ _ hpd l hl
    rw [hclen]
    cases hlk : (((List.insertionSort (fun a b => strLe a.name b.name) root).map
        (fun f => f.name)).enum.map (fun p => (p.2, p.1))).lookup d.name with
    | none =>
      simp only [Option.getD_none]
      have hpos : 0 < (List.insertionSort (fun a b => strLe a.name b.name) root).length :=
        List.length_pos.mpr (List.ne_nil_of_mem hd)
      omega
    | some v =>
      simp only [Option.getD_some]
      have hmem := lookup_mem hlk
      have hv : v ∈ (((List.insertionSort (fun a b => strLe a.name b.name) root).map
          (fun f => f.name)).enum.map (fun p => (p.2, p.1))).map Prod.snd :=
        List.mem_map_of_mem _ hmem
      rw [hsnd] at hv
      exact List.mem_range.mp hv

/-- Witness for C8 at a concrete two-class root. -/
theorem claim_C8_witness :
    DataHandler.init.prepare_training_data rootAB = .ok ([], [], [], [("a", 0), ("b", 1)]) ∧
      (([("a", 0), ("b", 1)] : List (String × Nat)).length = rootAB.length ∧
        ([("a", 0), ("b", 1)] : List (String × Nat)).map Prod.fst =
          (List.insertionSort (fun a b => strLe a.name b.name) rootAB).map ClassDir.name ∧
        ([("a", 0), ("b", 1)] : List (String × Nat)).map Prod.snd = List.range rootAB.length ∧
        ∀ l ∈ ([] : List Nat), l < ([("a", 0), ("b", 1)] : List (String × Nat)).length) :=
  ⟨rfl, claim_C8 DataHandler.init rootAB [] [] [] [("a", 0), ("b", 1)] rfl⟩

/-- Claim C9: snapshot round-trip — writing a split dataset as a
snapshot (`get_training_data` with `data_pickle = None`) and then
reading that snapshot back (`data_pickle` set to the written bundle)
yields `X_train`, `X_test`, `y_train`, `y_test`, `videos` and `classes`
identical to the in-memory data that produced the snapshot. -/
theorem claim_C9 (dh : DataHandler) (perm : Nat → Nat → List Nat) (root : List ClassDir)
    (snap : Snapshot)
    (out : List (List Frame) × List (List Frame) × List Nat × List Nat ×
      List String × List (String × Nat))
    (h : dh.get_training_data perm root none = .ok (some snap, out)) :
    dh.get_training_data perm root (some snap) = .ok (none, out) := by
  rw [DataHandler.get_training_data] at h
  cases hp : dh.prepare_training_data root with
  | error e => rw [hp] at h; exact absurd h (by simp)
  | ok t =>
    obtain ⟨X, y, video_list, classes⟩ := t
    rw [hp] at h
    simp only [Except.ok.injEq, Prod.mk.injEq, Option.some.injEq] at h
    obtain ⟨hsnap, hout⟩ := h
    rw [DataHandler.get_training_data, ← hsnap, ← hout]

/-- Witness for C9: a concrete write-then-read round trip. -/
theorem claim_C9_witness :
    DataHandler.init.get_training_data idPerm rootAB none =
        .ok (some snapAB, ([], [], [], [], [], [("a", 0), ("b", 1)])) ∧
      DataHandler.init.get_training_data idPerm rootAB (some snapAB) =
        .ok (none, ([], [], [], [], [], [("a", 0), ("b", 1)])) := by
  have h : DataHandler.init.get_training_data idPerm rootAB none =
      .ok (some snapAB, ([], [], [], [], [], [("a", 0), ("b", 1)])) := by
    with_unfolding_all rfl
  exact ⟨h, claim_C9 DataHandler.init idPerm rootAB snapAB _ h⟩

/-- Claim C6 (amended): when no pretrained model path is given,
`Trainer.train` instantiates a fresh 3D-convolutional classifier with
the trainer's operating resolution, 16 frames and 3 channels, but with
a hardcoded output size of `nb_classes = 3` (line 144 passes the
literal `3`, not `self.n_classes`); the output size therefore equals
the dataset-derived class count only when that count is 3. -/
theorem claim_C6_amended (tr : Trainer) :
    tr.chooseModel none = c3d_model tr.operating_resolution 16 3 3 ∧
      (tr.chooseModel none).nb_classes = 3 :=
  ⟨rfl, rfl⟩

/-- Counterexample to claim C6 as stated: for a two-class dataset the
freshly built model's output size is 3, not the dataset's class
count 2. -/
theorem claim_C6_counterexample :
    (Trainer.chooseModel
        { operating_resolution := (224, 224), classes := [("a", 0), ("b", 1)] } none).nb_classes ≠
      Trainer.n_classes
        { operating_resolution := (224, 224), classes := [("a", 0), ("b", 1)] } := by
  decide

/-- Claim C1 (code evaluation at the failing input): with the metrics
the script actually compiles at line 151 — none — `val_accuracy` never
appears in the epoch logs, so the `ModelCheckpoint` callback raises a
`KeyError` at the first epoch end and no checkpoint is ever written,
regardless of how validation accuracy evolves; had an accuracy metric
been compiled, the same callback on the same accuracy sequence would
save exactly on strict improvement over all prior epochs (third
conjunct: save, skip, save for accuracies 1/2, 1/4, 3/4). -/
theorem claim_C1_eval :
    modelCheckpointRun compile_metrics none accsW = [CheckpointEvent.keyError] ∧
      CheckpointEvent.saved ∉ modelCheckpointRun compile_metrics none accsW ∧
      modelCheckpointRun ["accuracy"] none accsW =
        [CheckpointEvent.saved, CheckpointEvent.skipped, CheckpointEvent.saved] := by
  refine ⟨by decide, by decide, ?_⟩
  with_unfolding_all rfl

theorem test_getD (fv : List (List ℚ)) (y : List Nat) (t : ℚ) (idx : Nat)
    (h : idx < fv.length) :
    (Tester.test fv y t).getD idx .skipped =
      processQuery y idx (retrieved_indexes fv idx t) := by
  rw [Tester.test]
  have hlt : idx < ((List.range fv.length).map
      (fun i => processQuery y i (retrieved_indexes fv i t))).length := by
    simpa using h
  rw [List.getD_eq_getElem _ _ hlt, List.getElem_map]
  simp [List.getElem_range]

theorem zipWith_replicate_left {α β γ : Type} (f : α → β → γ) (c : α) :
    ∀ (l : List β), List.zipWith f (List.replicate l.length c) l = l.map (fun b => f c b) := by
  intro l
  induction l with
  | nil => rfl
  | cons b rest ih => simp [List.replicate_succ, ih]

theorem dot_self_pos (v : List ℚ) (hx : ∃ x ∈ v, x ≠ 0) : 0 < dot v v := by
  obtain ⟨x, hxv, hx0⟩ := hx
  rw [dot, List.zipWith_same]
  have hle : x * x ≤ (v.map (fun a => a * a)).sum := by
    refine List.single_le_sum ?_ _ (List.mem_map_of_mem _ hxv)
    intro b hb
    obtain ⟨c, -, rfl⟩ := List.mem_map.mp hb
    exact mul_self_nonneg c
  have hpos : 0 < x * x := mul_self_pos.mpr hx0
  linarith

theorem cos_gt_self (v : List ℚ) (hx : ∃ x ∈ v, x ≠ 0) :
    cos_gt v v distance_threshold = true := by
  have hd := dot_self_pos v hx
  have hdd : 0 < dot v v * dot v v := mul_pos hd hd
  rw [cos_gt]
  have h2 : distance_threshold * distance_threshold * (dot v v * dot v v) <
      dot v v * dot v v := by
    have ht : distance_threshold * distance_threshold < 1 := by
      rw [distance_threshold]; norm_num
    nlinarith
  simp only [Bool.and_eq_true, decide_eq_true_eq]
  exact ⟨hd, h2⟩

/-- Claim C4 (amended): in the retrieval evaluation loop, exactly the
queries with exactly one retrieved example above the similarity
threshold are skipped without crashing (the NumPy squeeze of a
one-element index array yields a scalar whose `len()` raises, and the
bare `except` swallows it); a query with zero retrieved examples is
not excluded but contributes an undefined (NaN) empty-mean value to
`accuracy_list`; and every query with at least two retrieved examples
contributes its per-query accuracy to the mean. -/
theorem claim_C4_amended (fv : List (List ℚ)) (y : List Nat) (idx : Nat)
    (h : idx < fv.length) :
    ((Tester.test fv y distance_threshold).getD idx .skipped = .skipped ↔
      (retrieved_indexes fv idx distance_threshold).length = 1) ∧
    ((Tester.test fv y distance_threshold).getD idx .skipped = .nanAcc ↔
      (retrieved_indexes fv idx distance_threshold).length = 0) ∧
    ((∃ a, (Tester.test fv y distance_threshold).getD idx .skipped = .acc a) ↔
      2 ≤ (retrieved_indexes fv idx distance_threshold).length) := by
  rw [test_getD fv y distance_threshold idx h]
  rcases hr : retrieved_indexes fv idx distance_threshold with - | ⟨a1, - | ⟨a2, rest⟩⟩
  · refine ⟨by simp [processQuery], by simp [processQuery], by simp [processQuery]⟩
  · refine ⟨by simp [processQuery], by simp [processQuery], by simp [processQuery]⟩
  · refine ⟨by simp [processQuery], by simp [processQuery], ?_⟩
    constructor
    · intro _
      simp
    · intro _
      exact ⟨_, rfl⟩

/-- Witness for C4 at a concrete pair of identical embeddings. -/
theorem claim_C4_witness :
    1 < ([[(1 : ℚ)], [(1 : ℚ)]] : List (List ℚ)).length ∧
      (((Tester.test [[(1 : ℚ)], [(1 : ℚ)]] [0, 0] distance_threshold).getD 1 .skipped =
          .skipped ↔
        (retrieved_indexes [[(1 : ℚ)], [(1 : ℚ)]] 1 distance_threshold).length = 1) ∧
      ((Tester.test [[(1 : ℚ)], [(1 : ℚ)]] [0, 0] distance_threshold).getD 1 .skipped =
          .nanAcc ↔
        (retrieved_indexes [[(1 : ℚ)], [(1 : ℚ)]] 1 distance_threshold).length = 0) ∧
      ((∃ a, (Tester.test [[(1 : ℚ)], [(1 : ℚ)]] [0, 0] distance_threshold).getD 1 .skipped =
          .acc a) ↔
        2 ≤ (retrieved_indexes [[(1 : ℚ)], [(1 : ℚ)]] 1 distance_threshold).length)) :=
  ⟨by decide, claim_C4_amended [[(1 : ℚ)], [(1 : ℚ)]] [0, 0] 1 (by decide)⟩

/-- Counterexample to claim C4 as stated: a query whose retrieved set
is nonempty (it retrieved exactly itself) is nevertheless skipped by
the loop, so it is not the case that every query with at least one
retrieved example contributes a per-query accuracy. -/
theorem claim_C4_counterexample :
    (retrieved_indexes [[(1 : ℚ)]] 0 distance_threshold).length = 1 ∧
      Tester.test [[(1 : ℚ)]] [0] distance_threshold = [.skipped] := by
  refine ⟨?_, ?_⟩ <;> with_unfolding_all rfl

/-- Claim C5 (amended): every query whose embedding vector is nonzero
retrieves itself (its cosine similarity with itself is exactly 1, which
exceeds the 0.9 threshold), so its retrieved set is non-empty; and
whenever the loop computes a per-query accuracy for such a query, that
accuracy is bounded below by `1/retrieved_count` because the self-match
always agrees with the query's own label. -/
theorem claim_C5_amended (fv : List (List ℚ)) (y : List Nat) (idx : Nat)
    (h : idx < fv.length) (hnz : ∃ x ∈ fv.getD idx [], x ≠ 0) :
    idx ∈ retrieved_indexes fv idx distance_threshold ∧
      ∀ a, (Tester.test fv y distance_threshold).getD idx .skipped = QueryOutcome.acc a →
        1 / ((retrieved_indexes fv idx distance_threshold).length : ℚ) ≤ a := by
  have hself : idx ∈ retrieved_indexes fv idx distance_threshold := by
    rw [retrieved_indexes]
    exact List.mem_filter.mpr ⟨List.mem_range.mpr h, cos_gt_self _ hnz⟩
  refine ⟨hself, ?_⟩
  intro a ha
  rw [test_getD fv y distance_threshold idx h] at ha
  rcases hr : retrieved_indexes fv idx distance_threshold with - | ⟨a1, - | ⟨a2, rest⟩⟩ <;>
    rw [hr] at ha
  · exact absurd ha (by simp [processQuery])
  · exact absurd ha (by simp [processQuery])
  · have hpq : processQuery y idx (a1 :: a2 :: rest) =
        QueryOutcome.acc
          (accuracy_score (List.replicate (a1 :: a2 :: rest).length (y.getD idx 0))
            ((a1 :: a2 :: rest).map (fun j => y.getD j 0))) := rfl
    rw [hpq] at ha
    simp only [QueryOutcome.acc.injEq] at ha
    subst ha
    rw [accuracy_score, List.length_replicate]
    have hzip : List.zipWith (fun a b => if a = b then (1 : ℚ) else 0)
        (List.replicate (a1 :: a2 :: rest).length (y.getD idx 0))
        ((a1 :: a2 :: rest).map (fun j => y.getD j 0)) =
        ((a1 :: a2 :: rest).map (fun j => y.getD j 0)).map
          (fun b => if y.getD idx 0 = b then (1 : ℚ) else 0) := by
      have hlen2 : (a1 :: a2 :: rest).length =
          ((a1 :: a2 :: rest).map (fun j => y.getD j 0)).length := by simp
      rw [hlen2]
      exact zipWith_replicate_left _ _ _
    rw [hzip]
    have hidx : idx ∈ (a1 :: a2 :: rest) := hr ▸ hself
    have hmem1 : (1 : ℚ) ∈ ((a1 :: a2 :: rest).map (fun j => y.getD j 0)).map
        (fun b => if y.getD idx 0 = b then (1 : ℚ) else 0) := by
      have hmm := List.mem_map_of_mem
        ((fun b => if y.getD idx 0 = b then (1 : ℚ) else 0) ∘ (fun j => y.getD j 0)) hidx
      rw [List.map_map]
      simpa using hmm
    have hsum : (1 : ℚ) ≤ (((a1 :: a2 :: rest).map (fun j => y.getD j 0)).map
        (fun b => if y.getD idx 0 = b then (1 : ℚ) else 0)).sum := by
      refine List.single_le_sum ?_ _ hmem1
      intro b hb
      obtain ⟨c, -, rfl⟩ := List.mem_map.mp hb
      by_cases hc : y.getD idx 0 = c
      · rw [if_pos hc]
        norm_num
      · rw [if_neg hc]
    have hk : (0 : ℚ) < ((a1 :: a2 :: rest).length : ℚ) := by
      have hp : 0 < (a1 :: a2 :: rest).length := by simp
      exact_mod_cast hp
    exact (div_le_div_iff_of_pos_right hk).mpr hsum

/-- Witness for C5 at a concrete pair of parallel embeddings. -/
theorem claim_C5_witness :
    0 < ([[(1 : ℚ)], [(2 : ℚ)]] : List (List ℚ)).length ∧
      (∃ x ∈ ([[(1 : ℚ)], [(2 : ℚ)]] : List (List ℚ)).getD 0 [], x ≠ 0) ∧
      (0 ∈ retrieved_indexes [[(1 : ℚ)], [(2 : ℚ)]] 0 distance_threshold ∧
        ∀ a, (Tester.test [[(1 : ℚ)], [(2 : ℚ)]] [0, 1] distance_threshold).getD 0 .skipped =
            QueryOutcome.acc a →
          1 / ((retrieved_indexes [[(1 : ℚ)], [(2 : ℚ)]] 0 distance_threshold).length : ℚ) ≤ a) :=
  ⟨by decide, ⟨1, by decide⟩,
    claim_C5_amended [[(1 : ℚ)], [(2 : ℚ)]] [0, 1] 0 (by decide) ⟨1, by decide⟩⟩

/-- Counterexample to claim C5 as stated: a query with an all-zero
embedding vector does not retrieve itself — under sklearn's zero-norm
convention its cosine similarity row is identically 0 — so its
retrieved set is empty. -/
theorem claim_C5_counterexample :
    0 < ([[(0 : ℚ)]] : List (List ℚ)).length ∧
      retrieved_indexes [[(0 : ℚ)]] 0 distance_threshold = [] := by
  refine ⟨by decide, ?_⟩
  with_unfolding_all rfl

theorem processFiles_shape (label : Nat) :
    ∀ (files : List VideoFile),
      (∀ vf ∈ files, 96 ≤ vf.frames.length ∧ ∀ fr ∈ vf.frames, fr.channels = 3) →
      ∃ X ls vs, processFiles DataHandler.init label files = .ok (X, ls, vs) ∧
        X.length = files.length ∧
        ∀ s ∈ X, s.length = 16 ∧
          ∀ fr ∈ s, fr.height = 224 ∧ fr.width = 224 ∧ fr.channels = 3 := by
  intro files
  induction files with
  | nil => exact fun _ => ⟨[], [], [], rfl, rfl, by simp⟩
  | cons vf rest ih =>
    intro hv
    obtain ⟨out, hok, hlen16, hshape, -⟩ :=
      sample_frames_shape vf.frames (hv vf (List.mem_cons_self ..)).1
        (hv vf (List.mem_cons_self ..)).2
    obtain ⟨X, ls, vs, hok2, hXlen, hXshape⟩ :=
      ih (fun g hg => hv g (List.mem_cons_of_mem _ hg))
    refine ⟨out :: X, label :: ls, vf.name :: vs, ?_, by simp [hXlen], ?_⟩
    · rw [processFiles, DataHandler.extract_video_features, hok, hok2]
    · intro s hs
      rcases List.mem_cons.mp hs with rfl | hs
      · exact ⟨hlen16, hshape⟩
      · exact hXshape s hs

theorem processDirs_shape (classes : List (String × Nat)) :
    ∀ (dirs : List ClassDir),
      (∀ d ∈ dirs, ∀ vf ∈ d.files, 96 ≤ vf.frames.length ∧
        ∀ fr ∈ vf.frames, fr.channels = 3) →
      ∃ X y v, processDirs DataHandler.init classes dirs = .ok (X, y, v) ∧
        X.length = (dirs.map (fun d => d.files.length)).sum ∧
        ∀ s ∈ X, s.length = 16 ∧
          ∀ fr ∈ s, fr.height = 224 ∧ fr.width = 224 ∧ fr.channels = 3 := by
  intro dirs
  induction dirs with
  | nil => exact fun _ => ⟨[], [], [], rfl, rfl, by simp⟩
  | cons d rest ih =>
    intro hv
    have hsortmem : ∀ vf ∈ List.insertionSort (fun a b => strLe a.name b.name) d.files,
        96 ≤ vf.frames.length ∧ ∀ fr ∈ vf.frames, fr.channels = 3 := by
      intro vf hvf
      exact hv d (List.mem_cons_self ..) vf ((List.perm_insertionSort _ _).mem_iff.mp hvf)
    obtain ⟨X1, l1, v1, hok1, hlen1, hshape1⟩ :=
      processFiles_shape ((classes.lookup d.name).getD 0) _ hsortmem
    obtain ⟨X2, y2, v2, hok2, hlen2, hshape2⟩ :=
      ih (fun g hg => hv g (List.mem_cons_of_mem _ hg))
    refine ⟨X1 ++ X2, l1 ++ y2, v1 ++ v2, ?_, ?_, ?_⟩
    · rw [processDirs, hok1, hok2]
    · rw [List.length_append, hlen1, hlen2, List.map_cons, List.sum_cons,
        List.length_insertionSort]
    · intro s hs
      rcases List.mem_append.mp hs with hs | hs
      · exact hshape1 s hs
      · exact hshape2 s hs

theorem train_test_split_spec (perm : Nat → Nat → List Nat) (X : List (List Frame))
    (y : List Nat) (ts : ℚ) (seed : Nat)
    (hperm : (perm seed X.length).Perm (List.range X.length)) :
    (train_test_split perm X y ts seed).1.length =
        X.length - (⌈ts * X.length⌉).toNat ∧
    (train_test_split perm X y ts seed).2.1.length =
        min (⌈ts * X.length⌉).toNat X.length ∧
    (∀ s ∈ (train_test_split perm X y ts seed).1, s ∈ X) ∧
    (∀ s ∈ (train_test_split perm X y ts seed).2.1, s ∈ X) := by
  have hplen : (perm seed X.length).length = X.length := by
    rw [hperm.length_eq, List.length_range]
  have hmemlt : ∀ i ∈ perm seed X.length, i < X.length := by
    intro i hi
    exact List.mem_range.mp (hperm.mem_iff.mp hi)
  have hgetD : ∀ i, i < X.length → X.getD i [] ∈ X := by
    intro i hi
    rw [List.getD_eq_getElem _ _ hi]
    exact List.getElem_mem ..
  rw [train_test_split]
  refine ⟨?_, ?_, ?_, ?_⟩
  · rw [List.length_map, List.length_drop, hplen]
  · rw [List.length_map, List.length_take, hplen]
  · intro s hs
    obtain ⟨i, hi, rfl⟩ := List.mem_map.mp hs
    exact hgetD i (hmemlt i (List.mem_of_mem_drop hi))
  · intro s hs
    obtain ⟨i, hi, rfl⟩ := List.mem_map.mp hs
    exact hgetD i (hmemlt i (List.mem_of_mem_take hi))

/-- Claim C7: the train/test split is deterministic for a fixed seed
and input ordering (in this embedding the split is a pure function of
the inputs and the seeded permutation), and for 3 classes of 10 videos
each (N = 16, resolution 224x224, test_fraction 0.05) the Dataset
Builder yields `X_train` of shape `(28, 16, 224, 224, 3)` and `X_test`
of shape `(2, 16, 224, 224, 3)`, with a 3-entry `classes` mapping
(`n_test = ceil(0.05 * 30) = 2`). -/
theorem claim_C7 (perm : Nat → Nat → List Nat) (root : List ClassDir)
    (hperm : (perm 42 30).Perm (List.range 30))
    (h3 : root.length = 3)
    (h10 : ∀ d ∈ root, d.files.length = 10)
    (hvid : ∀ d ∈ root, ∀ vf ∈ d.files, 96 ≤ vf.frames.length ∧
      ∀ fr ∈ vf.frames, fr.channels = 3) :
    ∃ snap Xtr Xte ytr yte vids classes,
      DataHandler.init.get_training_data perm root none =
        .ok (some snap, (Xtr, Xte, ytr, yte, vids, classes)) ∧
      Xtr.length = 28 ∧ Xte.length = 2 ∧ classes.length = 3 ∧
      (∀ s ∈ Xtr, s.length = 16 ∧
        ∀ fr ∈ s, fr.height = 224 ∧ fr.width = 224 ∧ fr.channels = 3) ∧
      (∀ s ∈ Xte, s.length = 16 ∧
        ∀ fr ∈ s, fr.height = 224 ∧ fr.width = 224 ∧ fr.channels = 3) := by
  have hps : (List.insertionSort (fun a b => strLe a.name b.name) root).Perm root :=
    List.perm_insertionSort ..
  have hvs : ∀ d ∈ List.insertionSort (fun a b => strLe a.name b.name) root,
      ∀ vf ∈ d.files, 96 ≤ vf.frames.length ∧ ∀ fr ∈ vf.frames, fr.channels = 3 := by
    intro d hd
    exact hvid d (hps.mem_iff.mp hd)
  obtain ⟨X, y, v, hok, hXlen, hXshape⟩ := processDirs_shape
    (((List.insertionSort (fun a b => strLe a.name b.name) root).map (fun f => f.name)).enum.map
      (fun p => (p.2, p.1))) _ hvs
  have hX30 : X.length = 30 := by
    rw [hXlen]
    have hrep : (List.insertionSort (fun a b => strLe a.name b.name) root).map
        (fun d => d.files.length) = List.replicate 3 10 := by
      rw [List.eq_replicate_iff]
      constructor
      · rw [List.length_map, List.length_insertionSort, h3]
      · intro b hb
        obtain ⟨d, hd, rfl⟩ := List.mem_map.mp hb
        exact h10 d (hps.mem_iff.mp hd)
    rw [hrep]
    simp
  have hclen :
      (((List.insertionSort (fun a b => strLe a.name b.name) root).map
        (fun f => f.name)).enum.map (fun p => (p.2, p.1))).length = 3 := by
    rw [List.length_map, List.enum_length, List.length_map, List.length_insertionSort, h3]
  have hprep : DataHandler.init.prepare_training_data root =
      .ok (X, y, v,
        ((List.insertionSort (fun a b => strLe a.name b.name) root).map
          (fun f => f.name)).enum.map (fun p => (p.2, p.1))) := by
    rw [DataHandler.prepare_training_data, hok]
  have hts : DataHandler.init.test_split = 1 / 20 := rfl
  have hntest : (⌈DataHandler.init.test_split * (X.length : ℚ)⌉).toNat = 2 := by
    rw [hts, hX30]
    rw [show ((30 : Nat) : ℚ) = 30 from by norm_num]
    rw [show (1 / 20 : ℚ) * 30 = 3 / 2 from by norm_num]
    rw [show (⌈(3 / 2 : ℚ)⌉ : ℤ) = 2 from by
      rw [Int.ceil_eq_iff]
      norm_num]
    rfl
  have hperm2 : (perm 42 X.length).Perm (List.range X.length) := by
    rw [hX30]
    exact hperm
  obtain ⟨hlentr, hlente, hmemtr, hmemte⟩ :=
    train_test_split_spec perm X y DataHandler.init.test_split 42 hperm2
  set T := train_test_split perm X y DataHandler.init.test_split 42 with hT
  set CL := ((List.insertionSort (fun a b => strLe a.name b.name) root).map
      (fun f => f.name)).enum.map (fun p => (p.2, p.1)) with hCL
  refine ⟨{ X_train := T.1, y_train := T.2.2.1, X_test := T.2.1, y_test := T.2.2.2,
            classes := CL, videos := v },
          T.1, T.2.1, T.2.2.1, T.2.2.2, v, CL, ?_, ?_, ?_, hclen, ?_, ?_⟩
  · rw [DataHandler.get_training_data, hprep]
  · rw [hlentr, hntest, hX30]
  · rw [hlente, hntest, hX30]
    rfl
  · intro s hs
    exact hXshape s (hmemtr s hs)
  · intro s hs
    exact hXshape s (hmemte s hs)

theorem mkVideo_length (k : Nat) : (mkVideo k).length = k := by
  simp [mkVideo]

theorem mkVideo_channels (k : Nat) : ∀ fr ∈ mkVideo k, fr.channels = 3 := by
  intro fr h
  rw [mkVideo] at h
  obtain ⟨i, -, rfl⟩ := List.mem_map.mp h
  rfl

theorem mkDir_files_length (nm : String) : (mkDir nm).files.length = 10 := by
  simp [mkDir]

theorem mkDir_files_frames (nm : String) :
    ∀ vf ∈ (mkDir nm).files, vf.frames = mkVideo 96 := by
  intro vf h
  rw [mkDir] at h
  obtain ⟨j, -, rfl⟩ := List.mem_map.mp h
  rfl

/-- Witness for C7 at the concrete three-class, ten-videos-per-class
root with 96-frame clips, under the identity permutation. -/
theorem claim_C7_witness :
    (idPerm 42 30).Perm (List.range 30) ∧ root3.length = 3 ∧
      (∀ d ∈ root3, d.files.length = 10) ∧
      (∀ d ∈ root3, ∀ vf ∈ d.files, 96 ≤ vf.frames.length ∧
        ∀ fr ∈ vf.frames, fr.channels = 3) ∧
      (∃ snap Xtr Xte ytr yte vids classes,
        DataHandler.init.get_training_data idPerm root3 none =
          .ok (some snap, (Xtr, Xte, ytr, yte, vids, classes)) ∧
        Xtr.length = 28 ∧ Xte.length = 2 ∧ classes.length = 3 ∧
        (∀ s ∈ Xtr, s.length = 16 ∧
          ∀ fr ∈ s, fr.height = 224 ∧ fr.width = 224 ∧ fr.channels = 3) ∧
        (∀ s ∈ Xte, s.length = 16 ∧
          ∀ fr ∈ s, fr.height = 224 ∧ fr.width = 224 ∧ fr.channels = 3)) := by
  have hperm : (idPerm 42 30).Perm (List.range 30) := List.Perm.refl _
  have h3 : root3.length = 3 := rfl
  have h10 : ∀ d ∈ root3, d.files.length = 10 := by
    intro d hd
    rw [root3] at hd
    simp only [List.mem_cons, List.not_mem_nil, or_false] at hd
    rcases hd with rfl | rfl | rfl <;> exact mkDir_files_length _
  have hvid : ∀ d ∈ root3, ∀ vf ∈ d.files, 96 ≤ vf.frames.length ∧
      ∀ fr ∈ vf.frames, fr.channels = 3 := by
    intro d hd vf hvf
    have hfr : vf.frames = mkVideo 96 := by
      rw [root3] at hd
      simp only [List.mem_cons, List.not_mem_nil, or_false] at hd
      rcases hd with rfl | rfl | rfl <;> exact mkDir_files_frames _ vf hvf
    rw [hfr, mkVideo_length]
    exact ⟨by norm_num, mkVideo_channels 96⟩
  exact ⟨hperm, h3, h10, hvid, claim_C7 idPerm root3 hperm h3 h10 hvid⟩
